import Mathlib

/-!
Verification development for the reV inclusion-mask engine
(`reV/supply_curve/exclusions.py`).

The Python source is shallowly embedded:

* numpy arrays become `Grid` values: a `(rows, cols)` shape plus a total
  value function `ℕ → ℕ → ℚ`; float values are modelled as rationals and
  the lossy `astype('float16')` cast is modelled as the identity.
* `scipy.ndimage.label` (an external collaborator of the repository) is
  modelled denotationally: a cell's label class is its connected component
  under the chosen kernel, computed here by an executable flood fill
  (`component`) and specified by the inductive relation `Reaches`.
* fallible Python code (raising `ValueError` / `RuntimeError`) becomes
  `Except String` values.
-/

/-- A raster cell, `(row, column)`. -/
abbrev Cell := ℕ × ℕ

/-- The two connectivity kernels of `ExclusionMask.FILTER_KERNELS`:
`queen` is the 3×3 all-ones structuring element (8-neighbour adjacency),
`rook` the plus-shaped one (4-neighbour adjacency). -/
inductive Kernel
  | queen
  | rook
deriving DecidableEq

/-- Boolean adjacency test between two cells for a kernel.  The structuring
elements of `FILTER_KERNELS` connect cells whose coordinate offsets are
within the element; the centre (the cell itself) is not its own neighbour. -/
def kadjb : Kernel → Cell → Cell → Bool
  | .queen, p, q =>
      decide (p ≠ q) && decide (Nat.dist p.1 q.1 ≤ 1) && decide (Nat.dist p.2 q.2 ≤ 1)
  | .rook, p, q => decide (Nat.dist p.1 q.1 + Nat.dist p.2 q.2 = 1)

/-- Adjacency as a proposition. -/
def kadj (k : Kernel) (p q : Cell) : Prop := kadjb k p q = true

instance (k : Kernel) (p q : Cell) : Decidable (kadj k p q) := by
  unfold kadj; infer_instance

lemma kadj_symm {k : Kernel} {p q : Cell} (h : kadj k p q) : kadj k q p := by
  cases k <;> simp only [kadj, kadjb, Bool.and_eq_true, decide_eq_true_eq] at h ⊢
  · exact ⟨⟨Ne.symm h.1.1, Nat.dist_comm p.1 q.1 ▸ h.1.2⟩, Nat.dist_comm p.2 q.2 ▸ h.2⟩
  · rw [Nat.dist_comm q.1 p.1, Nat.dist_comm q.2 p.2]; exact h

lemma kadj_irrefl (k : Kernel) (p : Cell) : ¬ kadj k p p := by
  cases k <;> simp [kadj, kadjb, Nat.dist_self]

/-- A dense 2-D array of rational values: the model of a numpy array.
Only the values at indices `i < rows`, `j < cols` are meaningful. -/
@[ext]
structure Grid where
  rows : ℕ
  cols : ℕ
  val : ℕ → ℕ → ℚ

/-- Foreground of a mask: in-bounds cells with strictly positive value.
`ndimage.label` is applied to `mask > 0` in `_area_filter`. -/
def fg (m : Grid) (p : Cell) : Prop :=
  p.1 < m.rows ∧ p.2 < m.cols ∧ 0 < m.val p.1 p.2

instance (m : Grid) (p : Cell) : Decidable (fg m p) := by
  unfold fg; infer_instance

/-- All in-bounds cells of a grid, in raster order. -/
def allCells (m : Grid) : List Cell :=
  (List.range m.rows).product (List.range m.cols)

lemma mem_allCells {m : Grid} {p : Cell} :
    p ∈ allCells m ↔ p.1 < m.rows ∧ p.2 < m.cols := by
  cases p with
  | mk i j => simp [allCells, List.mem_product]

lemma nodup_allCells (m : Grid) : (allCells m).Nodup :=
  (List.nodup_range m.rows).product (List.nodup_range m.cols)

lemma fg_mem_allCells {m : Grid} {p : Cell} (h : fg m p) : p ∈ allCells m :=
  mem_allCells.mpr ⟨h.1, h.2.1⟩

/-- At least one in-bounds cell is not strictly positive; exactly when this
holds does the label array of `_area_filter` contain the background label 0. -/
def hasBackground (m : Grid) : Prop :=
  ∃ p ∈ allCells m, ¬ 0 < m.val p.1 p.2

instance (m : Grid) : Decidable (hasBackground m) := by
  unfold hasBackground; infer_instance

/-- One step of flood fill: add every foreground cell adjacent to the
current front.  Models the growth of one `ndimage.label` component. -/
def expand (m : Grid) (k : Kernel) (s : List Cell) : List Cell :=
  s ++ (allCells m).filter (fun q => decide (q ∉ s ∧ fg m q ∧ ∃ x ∈ s, kadj k x q))

/-- Iterated flood fill with fuel, stopping at a fixpoint. -/
def compIter (m : Grid) (k : Kernel) : ℕ → List Cell → List Cell
  | 0, s => s
  | n + 1, s =>
      let s' := expand m k s
      if s'.length = s.length then s else compIter m k n s'

/-- The connected foreground component of a cell (empty for background):
the set of cells sharing the cell's `ndimage.label` label. -/
def component (m : Grid) (k : Kernel) (p : Cell) : List Cell :=
  if fg m p then compIter m k (allCells m).length [p] else []

/-- Specification of connectivity: `Reaches m k p q` holds when `q` lies in
the same connected foreground region as `p` (both foreground, linked by a
chain of kernel-adjacent foreground cells). -/
inductive Reaches (m : Grid) (k : Kernel) (p : Cell) : Cell → Prop
  | refl : fg m p → Reaches m k p p
  | step {q r : Cell} : Reaches m k p q → kadj k q r → fg m r → Reaches m k p r

lemma Reaches.fg_src {m : Grid} {k : Kernel} {p q : Cell}
    (h : Reaches m k p q) : fg m p := by
  induction h with
  | refl h => exact h
  | step _ _ _ ih => exact ih

lemma Reaches.fg_tgt {m : Grid} {k : Kernel} {p q : Cell}
    (h : Reaches m k p q) : fg m q := by
  induction h with
  | refl h => exact h
  | step _ _ hr _ => exact hr

lemma Reaches.trans {m : Grid} {k : Kernel} {p q r : Cell}
    (h₁ : Reaches m k p q) (h₂ : Reaches m k q r) : Reaches m k p r := by
  induction h₂ with
  | refl _ => exact h₁
  | step _ hadj hr ih => exact Reaches.step ih hadj hr

lemma Reaches.symm {m : Grid} {k : Kernel} {p q : Cell}
    (h : Reaches m k p q) : Reaches m k q p := by
  induction h with
  | refl h => exact Reaches.refl h
  | step hpq hadj hr ih =>
      exact Reaches.trans (Reaches.step (Reaches.refl hr) (kadj_symm hadj) hpq.fg_tgt) ih

lemma reaches_congr_src {m : Grid} {k : Kernel} {p x q : Cell}
    (hx : Reaches m k p x) : Reaches m k x q ↔ Reaches m k p q :=
  ⟨fun h => hx.trans h, fun h => hx.symm.trans h⟩

lemma mem_expand {m : Grid} {k : Kernel} {s : List Cell} {q : Cell} :
    q ∈ expand m k s ↔
      q ∈ s ∨ (q ∈ allCells m ∧ q ∉ s ∧ fg m q ∧ ∃ x ∈ s, kadj k x q) := by
  simp [expand, List.mem_filter, decide_eq_true_eq]

lemma subset_expand (m : Grid) (k : Kernel) (s : List Cell) : s ⊆ expand m k s :=
  fun _ h => List.mem_append_left _ h

lemma expand_subset_allCells {m : Grid} {k : Kernel} {s : List Cell}
    (h : s ⊆ allCells m) : expand m k s ⊆ allCells m := by
  intro q hq
  rcases mem_expand.mp hq with hq | hq
  · exact h hq
  · exact hq.1

lemma nodup_expand {m : Grid} {k : Kernel} {s : List Cell}
    (h : s.Nodup) : (expand m k s).Nodup := by
  refine List.Nodup.append h ((nodup_allCells m).filter _) ?_
  intro q hqs hqf
  rcases List.mem_filter.mp hqf with ⟨-, hd⟩
  rw [decide_eq_true_eq] at hd
  exact hd.1 hqs

lemma expand_length_eq_iff {m : Grid} {k : Kernel} {s : List Cell} :
    (expand m k s).length = s.length ↔ expand m k s = s := by
  constructor
  · intro h
    have hlen : s.length + ((allCells m).filter
        (fun q => decide (q ∉ s ∧ fg m q ∧ ∃ x ∈ s, kadj k x q))).length = s.length := by
      simpa [expand, List.length_append] using h
    have : ((allCells m).filter
        (fun q => decide (q ∉ s ∧ fg m q ∧ ∃ x ∈ s, kadj k x q))).length = 0 := by omega
    simp only [expand]
    rw [List.length_eq_zero.mp this, List.append_nil]
  · intro h; rw [h]

lemma compIter_fixed {m : Grid} {k : Kernel} {s : List Cell}
    (h : expand m k s = s) : ∀ n, compIter m k n s = s := by
  intro n
  cases n with
  | zero => rfl
  | succ n =>
      simp only [compIter]
      rw [if_pos (by rw [h])]

lemma subset_compIter (m : Grid) (k : Kernel) :
    ∀ (n : ℕ) (s : List Cell), s ⊆ compIter m k n s := by
  intro n
  induction n with
  | zero => intro s; exact fun _ h => h
  | succ n ih =>
      intro s
      simp only [compIter]
      by_cases h : (expand m k s).length = s.length
      · rw [if_pos h]; exact fun _ h => h
      · rw [if_neg h]
        exact fun x hx => ih (expand m k s) (subset_expand m k s hx)

lemma compIter_subset_allCells {m : Grid} {k : Kernel} :
    ∀ (n : ℕ) (s : List Cell), s ⊆ allCells m → compIter m k n s ⊆ allCells m := by
  intro n
  induction n with
  | zero => intro s hs; exact hs
  | succ n ih =>
      intro s hs
      simp only [compIter]
      by_cases h : (expand m k s).length = s.length
      · rw [if_pos h]; exact hs
      · rw [if_neg h]; exact ih _ (expand_subset_allCells hs)

lemma nodup_compIter {m : Grid} {k : Kernel} :
    ∀ (n : ℕ) (s : List Cell), s.Nodup → (compIter m k n s).Nodup := by
  intro n
  induction n with
  | zero => intro s hs; exact hs
  | succ n ih =>
      intro s hs
      simp only [compIter]
      by_cases h : (expand m k s).length = s.length
      · rw [if_pos h]; exact hs
      · rw [if_neg h]; exact ih _ (nodup_expand hs)

/-- With enough fuel the flood fill reaches a fixpoint: the iterate is
closed under `expand`. -/
lemma expand_compIter_fixpoint {m : Grid} {k : Kernel} :
    ∀ (n : ℕ) (s : List Cell), s.Nodup → s ⊆ allCells m →
      (allCells m).length + 1 ≤ n + s.length →
      expand m k (compIter m k n s) = compIter m k n s := by
  intro n
  induction n with
  | zero =>
      intro s hnd hsub hlen
      have hle : s.length ≤ (allCells m).length :=
        (List.subperm_of_subset hnd hsub).length_le
      omega
  | succ n ih =>
      intro s hnd hsub hlen
      simp only [compIter]
      by_cases h : (expand m k s).length = s.length
      · rw [if_pos h]
        exact expand_length_eq_iff.mp h
      · rw [if_neg h]
        have hgrow : s.length + 1 ≤ (expand m k s).length := by
          have : s.length ≤ (expand m k s).length :=
            (List.subperm_of_subset hnd (subset_expand m k s)).length_le
          omega
        exact ih (expand m k s) (nodup_expand hnd) (expand_subset_allCells hsub)
          (by omega)

lemma compIter_sound {m : Grid} {k : Kernel} {p : Cell} :
    ∀ (n : ℕ) (s : List Cell), (∀ x ∈ s, Reaches m k p x) →
      ∀ q ∈ compIter m k n s, Reaches m k p q := by
  intro n
  induction n with
  | zero => intro s hs q hq; exact hs q hq
  | succ n ih =>
      intro s hs
      simp only [compIter]
      by_cases h : (expand m k s).length = s.length
      · rw [if_pos h]; exact hs
      · rw [if_neg h]
        refine ih (expand m k s) ?_
        intro x hx
        rcases mem_expand.mp hx with hx | ⟨-, -, hfgx, y, hy, hadj⟩
        · exact hs x hx
        · exact Reaches.step (hs y hy) hadj hfgx

/-- Flood-fill correctness: membership in `component` coincides with the
connectivity specification `Reaches`. -/
lemma mem_component_iff {m : Grid} {k : Kernel} {p q : Cell} :
    q ∈ component m k p ↔ Reaches m k p q := by
  unfold component
  by_cases hp : fg m p
  · rw [if_pos hp]
    constructor
    · exact compIter_sound _ [p]
        (by intro x hx; rw [List.mem_singleton] at hx; subst hx; exact Reaches.refl hp) q
    · intro h
      induction h with
      | refl _ =>
          exact subset_compIter m k _ [p] (List.mem_singleton_self p)
      | step hq hadj hr ih =>
          rename_i q' r'
          have hfix : expand m k (compIter m k (allCells m).length [p])
              = compIter m k (allCells m).length [p] :=
            expand_compIter_fixpoint _ [p] (List.nodup_singleton p)
              (by intro x hx; rw [List.mem_singleton] at hx
                  subst hx; exact fg_mem_allCells hp)
              (by simp)
          by_cases hrin : r' ∈ compIter m k (allCells m).length [p]
          · exact hrin
          · rw [← hfix, mem_expand]
            exact Or.inr ⟨fg_mem_allCells hr, hrin, hr, q', ih, hadj⟩
  · rw [if_neg hp]
    simp only [List.not_mem_nil, false_iff]
    intro h
    exact hp h.fg_src

lemma nodup_component (m : Grid) (k : Kernel) (p : Cell) :
    (component m k p).Nodup := by
  unfold component
  by_cases hp : fg m p
  · rw [if_pos hp]; exact nodup_compIter _ [p] (List.nodup_singleton p)
  · rw [if_neg hp]; exact List.nodup_nil

/-- The executable component size equals the cardinality of the
`Reaches`-class of the cell. -/
lemma component_length_eq_ncard (m : Grid) (k : Kernel) (p : Cell) :
    (component m k p).length = {q | Reaches m k p q}.ncard := by
  have hset : {q | Reaches m k p q} = ((component m k p).toFinset : Set Cell) := by
    ext q
    rw [List.coe_toFinset]
    exact (mem_component_iff (m := m) (k := k) (p := p) (q := q)).symm
  rw [hset, Set.ncard_coe_Finset, List.toFinset_card_of_nodup (nodup_component m k p)]

/-- Model of `ExclusionMask._area_filter(mask, min_area, kernel, ex_area)`.

The source labels the connected components of `mask > 0` with
`ndimage.label`, takes `l, c = np.unique(labels, return_counts=True)`,
forms `bad_labels = l[1:][c[1:] < ceil(min_area / ex_area)]` and zeroes the
cells carrying a bad label.  Denotationally a cell is zeroed exactly when

* it is foreground (`mask > 0`, in bounds),
* its component's pixel count is `< ceil(min_area / ex_area)`, and
* the unique-label list starts with the background label `0`, i.e. some
  in-bounds cell is non-positive.  When every in-bounds cell is strictly
  positive the whole (rectangular, hence connected) grid is one component
  labelled `1`; `l[1:]` then drops that sole label instead of the absent
  background label, so nothing is ever zeroed. -/
def areaFilter (m : Grid) (k : Kernel) (minArea exArea : ℚ) : Grid :=
  ⟨m.rows, m.cols, fun i j =>
    if 0 < m.val i j ∧ i < m.rows ∧ j < m.cols
        ∧ ((component m k (i, j)).length : ℤ) < ⌈minArea / exArea⌉
        ∧ hasBackground m
    then 0 else m.val i j⟩

lemma areaFilter_rows (m : Grid) (k : Kernel) (a e : ℚ) :
    (areaFilter m k a e).rows = m.rows := rfl

lemma areaFilter_cols (m : Grid) (k : Kernel) (a e : ℚ) :
    (areaFilter m k a e).cols = m.cols := rfl

/-- The strict-count comparison of the source (`c < ceil(min_area/ex_area)`)
is the area comparison `count * ex_area < min_area` whenever the pixel
area is positive. -/
lemma count_lt_ceil_iff {c : ℕ} {a e : ℚ} (he : 0 < e) :
    ((c : ℤ) < ⌈a / e⌉) ↔ (c : ℚ) * e < a := by
  rw [Int.lt_ceil, lt_div_iff he]
  norm_cast

/-- Characterization of the area filter on in-bounds cells, with the
component size expressed through the connectivity specification. -/
lemma areaFilter_val_char (m : Grid) (k : Kernel) (a e : ℚ) (he : 0 < e)
    (i j : ℕ) (hi : i < m.rows) (hj : j < m.cols) :
    (areaFilter m k a e).val i j =
      if 0 < m.val i j ∧ ({q | Reaches m k (i, j) q}.ncard : ℚ) * e < a
          ∧ hasBackground m
      then 0 else m.val i j := by
  show (if _ then (0 : ℚ) else m.val i j) = _
  refine if_congr ?_ rfl rfl
  rw [component_length_eq_ncard]
  constructor
  · rintro ⟨hv, -, -, hlt, hb⟩
    exact ⟨hv, (count_lt_ceil_iff he).mp hlt, hb⟩
  · rintro ⟨hv, hlt, hb⟩
    exact ⟨hv, hi, hj, (count_lt_ceil_iff he).mpr hlt, hb⟩

/-- Each output cell of the filter is the input cell or zero, and
non-positive (background) cells are never touched. -/
lemma areaFilter_val_cases (m : Grid) (k : Kernel) (a e : ℚ) (i j : ℕ) :
    ((areaFilter m k a e).val i j = m.val i j ∨ (areaFilter m k a e).val i j = 0)
      ∧ (¬ 0 < m.val i j → (areaFilter m k a e).val i j = m.val i j) := by
  constructor
  · show ((if _ then (0 : ℚ) else _) = _) ∨ ((if _ then (0 : ℚ) else _) = _)
    split
    · exact Or.inr rfl
    · exact Or.inl rfl
  · intro hnp
    show (if _ then (0 : ℚ) else _) = _
    rw [if_neg]
    intro hc
    exact hnp hc.1

lemma fg_areaFilter_subset {m : Grid} {k : Kernel} {a e : ℚ} {x : Cell}
    (h : fg (areaFilter m k a e) x) : fg m x := by
  obtain ⟨hi, hj, hv⟩ := h
  refine ⟨hi, hj, ?_⟩
  by_contra hnp
  rw [((areaFilter_val_cases m k a e x.1 x.2).2 hnp)] at hv
  exact hnp hv

/-- The output value of the filter, unfolded. -/
lemma areaFilter_val_eq (m : Grid) (k : Kernel) (a e : ℚ) (i j : ℕ) :
    (areaFilter m k a e).val i j =
      if 0 < m.val i j ∧ i < m.rows ∧ j < m.cols
          ∧ ((component m k (i, j)).length : ℤ) < ⌈a / e⌉
          ∧ hasBackground m
      then 0 else m.val i j := rfl

/-- A foreground cell of a surviving (big enough) component is still
foreground after filtering. -/
lemma fg_areaFilter_of_big {m : Grid} {k : Kernel} {a e : ℚ} {x : Cell}
    (hx : fg m x)
    (hbig : ¬ ((component m k x).length : ℤ) < ⌈a / e⌉) :
    fg (areaFilter m k a e) x := by
  obtain ⟨i, j⟩ := x
  refine ⟨hx.1, hx.2.1, ?_⟩
  rw [areaFilter_val_eq, if_neg]
  · exact hx.2.2
  · rintro ⟨-, -, -, hlt, -⟩
    exact hbig hlt

/-- Cells of one component have components of equal size. -/
lemma component_length_congr {m : Grid} {k : Kernel} {p x : Cell}
    (h : Reaches m k p x) :
    (component m k x).length = (component m k p).length := by
  rw [component_length_eq_ncard, component_length_eq_ncard]
  congr 1
  ext q
  exact reaches_congr_src h

/-- Background cells survive filtering, so the filter preserves
`hasBackground`. -/
lemma hasBackground_areaFilter_iff (m : Grid) (k : Kernel) (a e : ℚ) :
    hasBackground (areaFilter m k a e) ↔ hasBackground m := by
  unfold hasBackground
  have hcells : allCells (areaFilter m k a e) = allCells m := rfl
  rw [hcells]
  constructor
  · rintro ⟨p, hp, hnp⟩
    rw [areaFilter_val_eq] at hnp
    by_cases hc : 0 < m.val p.1 p.2 ∧ p.1 < m.rows ∧ p.2 < m.cols
        ∧ ((component m k (p.1, p.2)).length : ℤ) < ⌈a / e⌉ ∧ hasBackground m
    · exact hc.2.2.2.2
    · rw [if_neg hc] at hnp
      exact ⟨p, hp, hnp⟩
  · rintro ⟨p, hp, hnp⟩
    refine ⟨p, hp, fun hv => hnp ?_⟩
    have h := (areaFilter_val_cases m k a e p.1 p.2).2 hnp
    rw [h] at hv
    exact hv

/-- `Reaches` only depends on the foreground set: grids with the same
foreground have the same connectivity. -/
lemma reaches_congr_fg {m₁ m₂ : Grid} {k : Kernel} (hfg : ∀ x, fg m₁ x ↔ fg m₂ x)
    {p q : Cell} : Reaches m₁ k p q ↔ Reaches m₂ k p q := by
  constructor
  · intro h
    induction h with
    | refl h => exact Reaches.refl ((hfg _).mp h)
    | step _ hadj hr ih => exact Reaches.step ih hadj ((hfg _).mp hr)
  · intro h
    induction h with
    | refl h => exact Reaches.refl ((hfg _).mpr h)
    | step _ hadj hr ih => exact Reaches.step ih hadj ((hfg _).mpr hr)

/-- Filtering zeroes whole components, so from a surviving cell the
reachable set is unchanged. -/
lemma reaches_areaFilter_iff {m : Grid} {k : Kernel} {a e : ℚ} {p : Cell}
    (hp : fg m p)
    (hbig : ¬ ((component m k p).length : ℤ) < ⌈a / e⌉) :
    ∀ q, Reaches (areaFilter m k a e) k p q ↔ Reaches m k p q := by
  intro q
  constructor
  · intro h
    induction h with
    | refl _ => exact Reaches.refl hp
    | step _ hadj hr ih => exact Reaches.step ih hadj (fg_areaFilter_subset hr)
  · intro h
    induction h with
    | refl _ => exact Reaches.refl (fg_areaFilter_of_big hp hbig)
    | step hq hadj hr ih =>
        rename_i q' r'
        have hreach : Reaches m k p r' := Reaches.step hq hadj hr
        have hbigr : ¬ ((component m k r').length : ℤ) < ⌈a / e⌉ := by
          rw [component_length_congr hreach]; exact hbig
        exact Reaches.step ih hadj (fg_areaFilter_of_big hr hbigr)

/-- A surviving foreground cell keeps its component size under filtering. -/
lemma component_areaFilter_eq {m : Grid} {k : Kernel} {a e : ℚ} {p : Cell}
    (hp : fg m p)
    (hbig : ¬ ((component m k p).length : ℤ) < ⌈a / e⌉) :
    (component (areaFilter m k a e) k p).length = (component m k p).length := by
  rw [component_length_eq_ncard, component_length_eq_ncard]
  congr 1
  ext q
  exact reaches_areaFilter_iff hp hbig q

/-- When no background cell exists (`l[1:]` drops the sole component label
instead of the absent label 0), the filter is the identity. -/
lemma areaFilter_eq_self_of_no_bg {m : Grid} {k : Kernel} {a e : ℚ}
    (h : ¬ hasBackground m) : areaFilter m k a e = m := by
  refine Grid.ext rfl rfl ?_
  funext i j
  rw [areaFilter_val_eq, if_neg]
  rintro ⟨-, -, -, -, hb⟩
  exact h hb

/-- Idempotence of the contiguous-area filter. -/
lemma areaFilter_idem (m : Grid) (k : Kernel) (a e : ℚ) :
    areaFilter (areaFilter m k a e) k a e = areaFilter m k a e := by
  by_cases hbg : hasBackground m
  · refine Grid.ext rfl rfl ?_
    funext i j
    have hbg' : hasBackground (areaFilter m k a e) :=
      (hasBackground_areaFilter_iff m k a e).mpr hbg
    by_cases hij : i < m.rows ∧ j < m.cols
    · by_cases hpos : 0 < m.val i j
      · by_cases hsmall : ((component m k (i, j)).length : ℤ) < ⌈a / e⌉
        · have h1 : (areaFilter m k a e).val i j = 0 := by
            rw [areaFilter_val_eq, if_pos ⟨hpos, hij.1, hij.2, hsmall, hbg⟩]
          rw [areaFilter_val_eq, h1, if_neg]
          rintro ⟨h0, -⟩
          exact lt_irrefl 0 h0
        · have hfg : fg m (i, j) := ⟨hij.1, hij.2, hpos⟩
          have h1 : (areaFilter m k a e).val i j = m.val i j := by
            rw [areaFilter_val_eq, if_neg]
            rintro ⟨-, -, -, hlt, -⟩
            exact hsmall hlt
          rw [areaFilter_val_eq, h1, if_neg]
          rintro ⟨-, -, -, hlt, -⟩
          rw [component_areaFilter_eq hfg hsmall] at hlt
          exact hsmall hlt
      · have h1 : (areaFilter m k a e).val i j = m.val i j :=
          (areaFilter_val_cases m k a e i j).2 hpos
        rw [areaFilter_val_eq, h1, if_neg]
        rintro ⟨h0, -⟩
        exact hpos h0
    · have h1 : (areaFilter m k a e).val i j = m.val i j := by
        rw [areaFilter_val_eq, if_neg]
        rintro ⟨-, hi, hj, -⟩
        exact hij ⟨hi, hj⟩
      rw [areaFilter_val_eq, h1, if_neg]
      rintro ⟨-, hi, hj, -⟩
      rw [areaFilter_rows] at hi
      rw [areaFilter_cols] at hj
      exact hij ⟨hi, hj⟩
  · rw [areaFilter_eq_self_of_no_bg hbg, areaFilter_eq_self_of_no_bg hbg]

/-- The three non-weight mask kinds `_check_mask_type` can return
(`'range'`, `'exclude'`, `'include'`). -/
inductive MaskType
  | rangeT
  | excludeT
  | includeT
deriving DecidableEq

/-- Model of a `LayerMask` object after a successful `__init__`. -/
structure LayerMask where
  layer : String
  inclusionRange : Option ℚ × Option ℚ
  excludeValues : Option (List ℚ)
  includeValues : Option (List ℚ)
  asWeights : Bool
  weight : ℚ
  maskType : Option MaskType

def msgBadWeight : String := "Invalide weight provided: Weight must fall between 0 and 1!"

def msgConflict : String :=
  "Only one approach can be used to create the inclusion mask"

def msgInvalidMaskType : String :=
  "None is an invalid mask type: expecting range, exclude, or include"

/-- The loop body of `LayerMask._check_mask_type`: walk the ordered
`masks` dict (`range`, `exclude`, `include`); remember the first kind whose
arguments were supplied; raise on a second one. -/
def checkFold : Option MaskType → List (MaskType × Bool) → Except String (Option MaskType)
  | acc, [] => .ok acc
  | acc, (kind, b) :: rest =>
      if b then
        match acc with
        | none => checkFold (some kind) rest
        | some _ => .error msgConflict
      else checkFold acc rest

/-- Model of `LayerMask._check_mask_type`: skipped entirely when
`use_as_weights` is set. -/
def checkMaskType (asW : Bool) (rng : Option ℚ × Option ℚ)
    (ev iv : Option (List ℚ)) : Except String (Option MaskType) :=
  if asW then .ok none
  else
    checkFold none
      [(.rangeT, rng.1.isSome || rng.2.isSome),
       (.excludeT, ev.isSome),
       (.includeT, iv.isSome)]

/-- Model of `LayerMask.__init__`: validate the weight, then resolve the
mask type; on success return the constructed object. -/
def mkLayerMask (layer : String) (rng : Option ℚ × Option ℚ)
    (ev iv : Option (List ℚ)) (asW : Bool) (w : ℚ) : Except String LayerMask :=
  if 1 < w ∨ w < 0 then .error msgBadWeight
  else (checkMaskType asW rng ev iv).map fun mt =>
    ⟨layer, rng, ev, iv, asW, w, mt⟩

/-- Pointwise `LayerMask._range_mask`: start from `True`, intersect with
`data >= min` and `data <= max` when the bounds are present. -/
def rangeMaskVal (rng : Option ℚ × Option ℚ) (v : ℚ) : ℚ :=
  if (∀ a ∈ rng.1, a ≤ v) ∧ (∀ b ∈ rng.2, v ≤ b) then 1 else 0

/-- Pointwise `LayerMask._value_mask` (`np.isin` plus optional negation),
covering `_inclusion_mask` (`incl = true`) and `_exclusion_mask`
(`incl = false`). -/
def valueMaskVal (values : List ℚ) (incl : Bool) (v : ℚ) : ℚ :=
  if incl then (if v ∈ values then 1 else 0)
  else (if v ∈ values then 0 else 1)

/-- Model of `LayerMask._apply_mask` (the `__getitem__` of a layer): pick
the mask function from the resolved mask type, raise on `None`, convert the
boolean mask to float (modelled as the `{0, 1}` values above) and multiply
by the weight.  `astype('float16')` is modelled as the identity on ℚ. -/
def applyMask (lm : LayerMask) (d : Grid) : Except String Grid :=
  if lm.asWeights then
    .ok ⟨d.rows, d.cols, fun i j => d.val i j * lm.weight⟩
  else
    match lm.maskType with
    | some .rangeT =>
        .ok ⟨d.rows, d.cols, fun i j =>
          rangeMaskVal lm.inclusionRange (d.val i j) * lm.weight⟩
    | some .excludeT =>
        .ok ⟨d.rows, d.cols, fun i j =>
          valueMaskVal (lm.excludeValues.getD []) false (d.val i j) * lm.weight⟩
    | some .includeT =>
        .ok ⟨d.rows, d.cols, fun i j =>
          valueMaskVal (lm.includeValues.getD []) true (d.val i j) * lm.weight⟩
    | none => .error msgInvalidMaskType

lemma applyMask_error_eq {lm : LayerMask} {d : Grid} {e : String}
    (h : applyMask lm d = .error e) : e = msgInvalidMaskType := by
  unfold applyMask at h
  by_cases hw : lm.asWeights
  · rw [if_pos hw] at h; exact absurd h (by simp)
  · rw [if_neg hw] at h
    match hmt : lm.maskType with
    | some .rangeT => rw [hmt] at h; exact absurd h (by simp)
    | some .excludeT => rw [hmt] at h; exact absurd h (by simp)
    | some .includeT => rw [hmt] at h; exact absurd h (by simp)
    | none => rw [hmt] at h; exact (Except.error.injEq _ _).mp h.symm

lemma applyMask_dims {lm : LayerMask} {d g : Grid}
    (h : applyMask lm d = .ok g) : g.rows = d.rows ∧ g.cols = d.cols := by
  unfold applyMask at h
  by_cases hw : lm.asWeights
  · rw [if_pos hw] at h
    cases (Except.ok.injEq _ _).mp h; exact ⟨rfl, rfl⟩
  · rw [if_neg hw] at h
    match hmt : lm.maskType with
    | some .rangeT =>
        rw [hmt] at h; cases (Except.ok.injEq _ _).mp h; exact ⟨rfl, rfl⟩
    | some .excludeT =>
        rw [hmt] at h; cases (Except.ok.injEq _ _).mp h; exact ⟨rfl, rfl⟩
    | some .includeT =>
        rw [hmt] at h; cases (Except.ok.injEq _ _).mp h; exact ⟨rfl, rfl⟩
    | none => rw [hmt] at h; exact absurd h (by simp)

/-- The Raster Layer Store (`ExclusionLayers`, an external collaborator):
a domain shape, a layer catalogue, and per-layer full-domain values. -/
structure Store where
  rows : ℕ
  cols : ℕ
  layers : List String
  read : String → ℕ → ℕ → ℚ

/-- A two-range window `(slice(r0, r1), slice(c0, c1))`: the only window
form `_increase_mask_slice` expands (anything else passes through). -/
structure Win where
  r0 : ℕ
  r1 : ℕ
  c0 : ℕ
  c1 : ℕ
deriving DecidableEq

/-- Windowed read from the store: the `excl_h5[(layer,) + ds_slice]` step. -/
def readWin (st : Store) (name : String) (w : Win) : Grid :=
  ⟨w.r1 - w.r0, w.c1 - w.c0, fun i j => st.read name (w.r0 + i) (w.c0 + j)⟩

/-- Cropping a grid with a sub-window: the final `mask[sub_slice]` step. -/
def cropGrid (g : Grid) (w : Win) : Grid :=
  ⟨w.r1 - w.r0, w.c1 - w.c0, fun i j => g.val (w.r0 + i) (w.c0 + j)⟩

/-- Model of `ExclusionMask._increase_mask_slice` on a two-range window:
per axis, `diff = n * |stop - start|`; the new range is
`[max(0, start - diff), min(domain, stop + diff))` (natural subtraction is
the `max` with 0); the recovery sub-slice start is 0 when the new start
equals the old one and `n * diff` otherwise, and its stop is the start
plus `diff`. -/
def increaseMaskSlice (shape : ℕ × ℕ) (ds : Win) (n : ℕ) : Win × Win :=
  let rdiff := n * Nat.dist ds.r1 ds.r0
  let cdiff := n * Nat.dist ds.c1 ds.c0
  let rNewStart := ds.r0 - rdiff
  let cNewStart := ds.c0 - cdiff
  let rNewStop := min shape.1 (ds.r1 + rdiff)
  let cNewStop := min shape.2 (ds.c1 + cdiff)
  let rSubStart := if rNewStart = ds.r0 then 0 else n * rdiff
  let cSubStart := if cNewStart = ds.c0 then 0 else n * cdiff
  (⟨rNewStart, rNewStop, cNewStart, cNewStop⟩,
   ⟨rSubStart, rSubStart + rdiff, cSubStart, cSubStart + cdiff⟩)

/-- Elementwise product of two masks (`mask *= layer_mask`). -/
def gridMul (a b : Grid) : Grid :=
  ⟨a.rows, a.cols, fun i j => a.val i j * b.val i j⟩

def msgNoLayers : String :=
  "TypeError: with a min_area but no layers the mask is None and labelling it raises"

/-- The layer loop of `_generate_mask`: read each layer over the (possibly
padded) window, apply its policy, and fold into a running elementwise
product seeded by the first layer's output (`None` seed for no layers). -/
def combineLayers (st : Store) (w : Win) :
    Option Grid → List LayerMask → Except String (Option Grid)
  | acc, [] => .ok acc
  | acc, lm :: rest =>
      match applyMask lm (readWin st lm.layer w) with
      | .error e => .error e
      | .ok g =>
          match acc with
          | none => combineLayers st w (some g) rest
          | some acc' => combineLayers st w (some (gridMul acc' g)) rest

/-- The mask-combining engine (`ExclusionMask` after a successful
`__init__`): store handle, ordered layer policies, optional minimum area,
kernel. -/
structure ExclusionMaskC where
  store : Store
  layerList : List LayerMask
  minArea : Option ℚ
  kernel : Kernel

/-- Model of `ExclusionMask._generate_mask` on a two-range window: when a
minimum area is configured, expand the window, combine the layers over the
padded window, filter with the fixed pixel area `0.0081` km², and crop with
the recorded sub-slice; otherwise just combine over the requested window.
With a minimum area and no layers the Python `_area_filter(None, ...)`
raises a `TypeError`, modelled as an error value. -/
def genMask (em : ExclusionMaskC) (w : Win) : Except String (Option Grid) :=
  match em.minArea with
  | none => combineLayers em.store w none em.layerList
  | some a =>
      let ws := increaseMaskSlice (em.store.rows, em.store.cols) w 1
      match combineLayers em.store ws.1 none em.layerList with
      | .error e => .error e
      | .ok none => .error msgNoLayers
      | .ok (some mGrid) =>
          .ok (some (cropGrid (areaFilter mGrid em.kernel a (81 / 10000)) ws.2))

/-- A synthetic layer content: a one-pixel-wide vertical strip of ones in
column `c0` from row `lo` downward, on an `R × C` grid. -/
def vlineGrid (R C c0 lo : ℕ) : Grid :=
  ⟨R, C, fun i j => if j = c0 ∧ lo ≤ i then 1 else 0⟩

lemma fg_vline {R C c0 lo : ℕ} {q : Cell} :
    fg (vlineGrid R C c0 lo) q ↔ q.1 < R ∧ c0 < C ∧ q.2 = c0 ∧ lo ≤ q.1 := by
  obtain ⟨i, j⟩ := q
  show (i < R ∧ j < C ∧ 0 < if j = c0 ∧ lo ≤ i then (1 : ℚ) else 0)
    ↔ (i < R ∧ c0 < C ∧ j = c0 ∧ lo ≤ i)
  by_cases hc : j = c0 ∧ lo ≤ i
  · rw [if_pos hc]
    constructor
    · rintro ⟨hi, hj, -⟩
      exact ⟨hi, hc.1 ▸ hj, hc.1, hc.2⟩
    · rintro ⟨hi, hC, -, -⟩
      exact ⟨hi, hc.1 ▸ hC, by norm_num⟩
  · rw [if_neg hc]
    constructor
    · rintro ⟨-, -, hv⟩
      exact absurd hv (lt_irrefl 0)
    · rintro ⟨-, -, hj, hlo⟩
      exact absurd ⟨hj, hlo⟩ hc

lemma kadj_vert (i c : ℕ) : kadj Kernel.queen (i, c) (i + 1, c) := by
  simp only [kadj, kadjb, Bool.and_eq_true, decide_eq_true_eq]
  refine ⟨⟨?_, ?_⟩, ?_⟩
  · intro h
    exact absurd (congrArg Prod.fst h) (by simp)
  · simp [Nat.dist]
  · simp [Nat.dist]

lemma reach_vline_up {R C c0 lo s : ℕ} (hlo : lo ≤ s) (hc : c0 < C) :
    ∀ d, s + d < R → Reaches (vlineGrid R C c0 lo) Kernel.queen (s, c0) (s + d, c0) := by
  intro d
  induction d with
  | zero =>
      intro h
      exact Reaches.refl (fg_vline.mpr ⟨by omega, hc, rfl, hlo⟩)
  | succ d ih =>
      intro h
      have hstep := kadj_vert (s + d) c0
      have : s + d + 1 = s + (d + 1) := by omega
      rw [this] at hstep
      exact Reaches.step (ih (by omega)) hstep
        (fg_vline.mpr ⟨h, hc, rfl, by omega⟩)

lemma reach_vline_of_mem {R C c0 lo s i : ℕ} (hlo : lo ≤ s) (hsR : s < R)
    (hc : c0 < C) (hi1 : lo ≤ i) (hi2 : i < R) :
    Reaches (vlineGrid R C c0 lo) Kernel.queen (s, c0) (i, c0) := by
  rcases le_total s i with hle | hle
  · have := reach_vline_up (R := R) (C := C) hlo hc (i - s) (by omega)
    rwa [Nat.add_sub_cancel' hle] at this
  · have := reach_vline_up (R := R) (C := C) (s := i) hi1 hc (s - i) (by omega)
    rw [Nat.add_sub_cancel' hle] at this
    exact this.symm

/-- The reachable set from any cell of the strip is the whole strip. -/
lemma reach_vline_set {R C c0 lo s : ℕ} (hlo : lo ≤ s) (hsR : s < R) (hc : c0 < C) :
    {q | Reaches (vlineGrid R C c0 lo) Kernel.queen (s, c0) q}
      = (fun i => ((i, c0) : Cell)) '' Set.Ico lo R := by
  ext q
  constructor
  · intro h
    have hq := fg_vline.mp h.fg_tgt
    exact ⟨q.1, ⟨hq.2.2.2, hq.1⟩, by rw [← hq.2.2.1]⟩
  · rintro ⟨i, ⟨hi1, hi2⟩, rfl⟩
    exact reach_vline_of_mem hlo hsR hc hi1 hi2

lemma ncard_vline_reach {R C c0 lo s : ℕ} (hlo : lo ≤ s) (hsR : s < R) (hc : c0 < C) :
    {q | Reaches (vlineGrid R C c0 lo) Kernel.queen (s, c0) q}.ncard = R - lo := by
  rw [reach_vline_set hlo hsR hc,
    Set.ncard_image_of_injective _ (fun a b h => congrArg Prod.fst h),
    ← Finset.coe_Ico, Set.ncard_coe_Finset, Nat.card_Ico]

/-- Cropping with a window anchored at the origin only truncates the shape. -/
lemma cropGrid_zero (g : Grid) (r c : ℕ) :
    cropGrid g ⟨0, r, 0, c⟩ = ⟨r, c, g.val⟩ := by
  refine Grid.ext rfl rfl ?_
  funext i j
  show g.val (0 + i) (0 + j) = g.val i j
  rw [Nat.zero_add, Nat.zero_add]

lemma gridMul_comm {a b : Grid} (hr : a.rows = b.rows) (hc : a.cols = b.cols) :
    gridMul a b = gridMul b a := by
  refine Grid.ext hr hc ?_
  funext i j
  exact mul_comm _ _

lemma gridMul_right_comm (m a b : Grid) :
    gridMul (gridMul m a) b = gridMul (gridMul m b) a := by
  refine Grid.ext rfl rfl ?_
  funext i j
  exact mul_right_comm _ _ _

lemma readWin_rows (st : Store) (name : String) (w : Win) :
    (readWin st name w).rows = w.r1 - w.r0 := rfl

lemma readWin_cols (st : Store) (name : String) (w : Win) :
    (readWin st name w).cols = w.c1 - w.c0 := rfl

/-- Unfolding equation for the layer fold. -/
lemma combineLayers_cons (st : Store) (w : Win) (acc : Option Grid)
    (lm : LayerMask) (rest : List LayerMask) :
    combineLayers st w acc (lm :: rest) =
      match applyMask lm (readWin st lm.layer w) with
      | .error e => .error e
      | .ok g =>
          match acc with
          | none => combineLayers st w (some g) rest
          | some acc' => combineLayers st w (some (gridMul acc' g)) rest := rfl

/-- Swapping the first two layers of the fold does not change the result:
the elementwise product commutes, and the only possible error value is the
fixed invalid-mask-type message. -/
lemma combineLayers_swap_head (st : Store) (w : Win) (A B : LayerMask)
    (l : List LayerMask) (acc : Option Grid) :
    combineLayers st w acc (A :: B :: l) = combineLayers st w acc (B :: A :: l) := by
  rw [combineLayers_cons st w acc A (B :: l), combineLayers_cons st w acc B (A :: l)]
  cases hA : applyMask A (readWin st A.layer w) with
  | error eA =>
      cases hB : applyMask B (readWin st B.layer w) with
      | error eB =>
          dsimp only
          rw [applyMask_error_eq hA, applyMask_error_eq hB]
      | ok gB =>
          dsimp only
          cases acc with
          | none =>
              dsimp only
              rw [combineLayers_cons st w (some gB) A l, hA]
          | some m =>
              dsimp only
              rw [combineLayers_cons st w (some (gridMul m gB)) A l, hA]
  | ok gA =>
      cases hB : applyMask B (readWin st B.layer w) with
      | error eB =>
          dsimp only
          cases acc with
          | none =>
              dsimp only
              rw [combineLayers_cons st w (some gA) B l, hB]
          | some m =>
              dsimp only
              rw [combineLayers_cons st w (some (gridMul m gA)) B l, hB]
      | ok gB =>
          have hdA := applyMask_dims hA
          have hdB := applyMask_dims hB
          dsimp only
          cases acc with
          | none =>
              dsimp only
              rw [combineLayers_cons st w (some gA) B l, hB,
                combineLayers_cons st w (some gB) A l, hA]
              dsimp only
              rw [gridMul_comm (by rw [hdA.1, hdB.1]; rfl) (by rw [hdA.2, hdB.2]; rfl)]
          | some m =>
              dsimp only
              rw [combineLayers_cons st w (some (gridMul m gA)) B l, hB,
                combineLayers_cons st w (some (gridMul m gB)) A l, hA]
              dsimp only
              rw [gridMul_right_comm]

/-- The layer fold is invariant under permutations of the layer list. -/
lemma combineLayers_perm (st : Store) (w : Win) {l l' : List LayerMask}
    (hp : l.Perm l') : ∀ acc, combineLayers st w acc l = combineLayers st w acc l' := by
  induction hp with
  | nil => intro acc; rfl
  | cons x _ ih =>
      intro acc
      rw [combineLayers_cons, combineLayers_cons]
      cases hx : applyMask x (readWin st x.layer w) with
      | error e => rfl
      | ok g =>
          dsimp only
          cases acc with
          | none => exact ih (some g)
          | some m => exact ih (some (gridMul m g))
  | swap x y _ => intro acc; exact combineLayers_swap_head st w y x _ acc
  | trans _ _ ih1 ih2 => intro acc; rw [ih1 acc, ih2 acc]

/-- A layer policy that will not raise in `_apply_mask`: either it is used
as raw weights or its mask type was resolved. -/
def validLM (lm : LayerMask) : Prop :=
  lm.asWeights = true ∨ lm.maskType.isSome = true

/-- The pointwise output of `_apply_mask` for a valid layer policy. -/
def maskVal (lm : LayerMask) (v : ℚ) : ℚ :=
  if lm.asWeights then v * lm.weight
  else
    match lm.maskType with
    | some .rangeT => rangeMaskVal lm.inclusionRange v * lm.weight
    | some .excludeT => valueMaskVal (lm.excludeValues.getD []) false v * lm.weight
    | some .includeT => valueMaskVal (lm.includeValues.getD []) true v * lm.weight
    | none => 0

lemma applyMask_ok_of_valid (lm : LayerMask) (d : Grid) (h : validLM lm) :
    applyMask lm d = .ok ⟨d.rows, d.cols, fun i j => maskVal lm (d.val i j)⟩ := by
  unfold applyMask
  by_cases hw : lm.asWeights
  · rw [if_pos hw]
    congr 1
    refine Grid.ext rfl rfl ?_
    funext i j
    show d.val i j * lm.weight = maskVal lm (d.val i j)
    unfold maskVal
    rw [if_pos hw]
  · rw [if_neg hw]
    have hmt : lm.maskType.isSome = true := by
      rcases h with h | h
      · exact absurd h hw
      · exact h
    rcases Option.isSome_iff_exists.mp hmt with ⟨t, ht⟩
    rw [ht]
    cases t <;>
      · dsimp only
        congr 1
        refine Grid.ext rfl rfl ?_
        funext i j
        dsimp only
        unfold maskVal
        rw [if_neg hw, ht]

/-- The value contributed by one layer at position `(i, j)` of window `w`. -/
def layerValAt (st : Store) (w : Win) (lm : LayerMask) (i j : ℕ) : ℚ :=
  maskVal lm (st.read lm.layer (w.r0 + i) (w.c0 + j))

lemma combineLayers_valid_acc (st : Store) (w : Win) :
    ∀ (ls : List LayerMask), (∀ lm ∈ ls, validLM lm) → ∀ g : Grid,
      g.rows = w.r1 - w.r0 → g.cols = w.c1 - w.c0 →
      combineLayers st w (some g) ls
        = .ok (some ⟨w.r1 - w.r0, w.c1 - w.c0,
            fun i j => g.val i j * (ls.map (fun lm => layerValAt st w lm i j)).prod⟩) := by
  intro ls
  induction ls with
  | nil =>
      intro _ g hr hc
      show Except.ok (some g) = _
      congr 1
      congr 1
      refine Grid.ext hr hc ?_
      funext i j
      show g.val i j = g.val i j * (List.map (fun lm => layerValAt st w lm i j) []).prod
      rw [List.map_nil, List.prod_nil, mul_one]
  | cons lm rest ih =>
      intro hv g hr hc
      rw [combineLayers_cons,
        applyMask_ok_of_valid lm _ (hv lm (List.mem_cons_self lm rest))]
      dsimp only
      rw [ih (fun x hx => hv x (List.mem_cons_of_mem lm hx))
        (gridMul g ⟨(readWin st lm.layer w).rows, (readWin st lm.layer w).cols,
          fun i j => maskVal lm ((readWin st lm.layer w).val i j)⟩) hr hc]
      congr 1
      congr 1
      refine Grid.ext rfl rfl ?_
      funext i j
      show g.val i j * maskVal lm ((readWin st lm.layer w).val i j)
          * (List.map (fun x => layerValAt st w x i j) rest).prod
        = g.val i j * (List.map (fun x => layerValAt st w x i j) (lm :: rest)).prod
      rw [List.map_cons, List.prod_cons, mul_assoc]
      rfl

/-- With valid layers, the fold seeded with `None` computes the plain
elementwise product of the per-layer outputs over the window. -/
lemma combineLayers_valid (st : Store) (w : Win) (ls : List LayerMask)
    (hv : ∀ lm ∈ ls, validLM lm) :
    combineLayers st w none ls
      = .ok (match ls with
          | [] => none
          | _ :: _ => some ⟨w.r1 - w.r0, w.c1 - w.c0,
              fun i j => (ls.map (fun lm => layerValAt st w lm i j)).prod⟩) := by
  cases ls with
  | nil => rfl
  | cons lm rest =>
      rw [combineLayers_cons,
        applyMask_ok_of_valid lm _ (hv lm (List.mem_cons_self lm rest))]
      dsimp only
      rw [combineLayers_valid_acc st w rest
        (fun x hx => hv x (List.mem_cons_of_mem lm hx))
        ⟨(readWin st lm.layer w).rows, (readWin st lm.layer w).cols,
          fun i j => maskVal lm ((readWin st lm.layer w).val i j)⟩ rfl rfl]
      congr 1

/-- Filtering a sub-window that already contains all foreground (plus a
background cell) agrees with filtering the whole domain, cell by cell. -/
lemma areaFilter_subgrid_eq (v : ℕ → ℕ → ℚ) (R C r c : ℕ) (hrR : r ≤ R) (hcC : c ≤ C)
    (hfg : ∀ x : Cell, fg (⟨R, C, v⟩ : Grid) x → x.1 < r ∧ x.2 < c)
    (hbg : ∃ p ∈ allCells (⟨r, c, v⟩ : Grid), ¬ 0 < v p.1 p.2)
    (k : Kernel) (a e : ℚ) (x y : ℕ) (hx : x < r) (hy : y < c) :
    (areaFilter (⟨r, c, v⟩ : Grid) k a e).val x y
      = (areaFilter (⟨R, C, v⟩ : Grid) k a e).val x y := by
  have hfgiff : ∀ z : Cell, fg (⟨r, c, v⟩ : Grid) z ↔ fg (⟨R, C, v⟩ : Grid) z := by
    intro z
    constructor
    · rintro ⟨h1, h2, h3⟩
      exact ⟨lt_of_lt_of_le h1 hrR, lt_of_lt_of_le h2 hcC, h3⟩
    · intro h
      exact ⟨(hfg z h).1, (hfg z h).2, h.2.2⟩
  have hcomp : (component (⟨r, c, v⟩ : Grid) k (x, y)).length
      = (component (⟨R, C, v⟩ : Grid) k (x, y)).length := by
    rw [component_length_eq_ncard, component_length_eq_ncard]
    congr 1
    ext q
    exact reaches_congr_fg hfgiff
  have hbgSmall : hasBackground (⟨r, c, v⟩ : Grid) := hbg
  have hbgBig : hasBackground (⟨R, C, v⟩ : Grid) := by
    obtain ⟨p, hp, hv⟩ := hbg
    obtain ⟨h1, h2⟩ := mem_allCells.mp hp
    exact ⟨p, mem_allCells.mpr ⟨lt_of_lt_of_le h1 hrR, lt_of_lt_of_le h2 hcC⟩, hv⟩
  rw [areaFilter_val_eq, areaFilter_val_eq]
  refine if_congr ?_ rfl rfl
  constructor
  · rintro ⟨h1, -, -, hlt, -⟩
    exact ⟨h1, lt_of_lt_of_le hx hrR, lt_of_lt_of_le hy hcC, by rw [← hcomp]; exact hlt,
      hbgBig⟩
  · rintro ⟨h1, -, -, hlt, -⟩
    exact ⟨h1, hx, hy, by rw [hcomp]; exact hlt, hbgSmall⟩

/-- 5×5 grid with a single isolated foreground pixel at `(2, 2)` — the
synthetic content of the spec's testable property 6. -/
def singlePixelGrid : Grid := ⟨5, 5, fun i j => if i = 2 ∧ j = 2 then 1 else 0⟩

/-- 1×1 grid whose only cell is foreground (no background anywhere). -/
def onePixelAllFg : Grid := ⟨1, 1, fun _ _ => 1⟩

/-- An everywhere-zero layer content. -/
def zeroContent : ℕ → ℕ → ℚ := fun _ _ => 0

lemma reach_onePixel :
    {q | Reaches onePixelAllFg Kernel.queen (0, 0) q} = {((0, 0) : Cell)} := by
  ext q
  constructor
  · intro h
    have hq := h.fg_tgt
    have hr : q.1 < 1 := hq.1
    have hc : q.2 < 1 := hq.2.1
    have h1 : q.1 = 0 := by omega
    have h2 : q.2 = 0 := by omega
    show q = (0, 0)
    obtain ⟨q1, q2⟩ := q
    simp only at h1 h2
    rw [h1, h2]
  · rintro rfl
    exact Reaches.refl (by decide)

/-- The padded window and recovery slice computed for the 100×100 domain
with requested window rows 10:20 / cols 10:20 and factor 1. -/
lemma incr_eval_10_20 :
    increaseMaskSlice (100, 100) ⟨10, 20, 10, 20⟩ 1
      = (⟨0, 30, 0, 30⟩, ⟨10, 20, 10, 20⟩) := by decide

/-- C2: the recovery offset is NOT always the distance from the padded
range's start to the original range's start.  On a 100×100 domain with the
window rows 5:20 / cols 5:20 and factor 1, the padded window starts at 0,
so the original start lies 5 rows inside the padded range, yet the expander
records a recovery offset of 15 per axis (`n * y_diff` instead of
`start - new_start`): cropping at the recorded offset extracts rows 15:30
of the padded window (domain rows 15:30) instead of the requested rows
5:20, contradicting the claim and the source's own docstring. -/
theorem C2_recover_offset_bug :
    increaseMaskSlice (100, 100) ⟨5, 20, 5, 20⟩ 1
      = (⟨0, 35, 0, 35⟩, ⟨15, 30, 15, 30⟩)
    ∧ (5 : ℕ) - (increaseMaskSlice (100, 100) ⟨5, 20, 5, 20⟩ 1).1.r0 = 5
    ∧ (increaseMaskSlice (100, 100) ⟨5, 20, 5, 20⟩ 1).2.r0 ≠ 5 := by
  refine ⟨by decide, by decide, by decide⟩

/-- C6: the contiguous-area filter is idempotent — filtering an
already-filtered mask with the same kernel, minimum area and pixel area
changes nothing. -/
theorem C6_area_filter_idempotent :
    ∀ (m : Grid) (k : Kernel) (a e : ℚ),
      areaFilter (areaFilter m k a e) k a e = areaFilter m k a e :=
  fun m k a e => areaFilter_idem m k a e

/-- C10: the area filter never invents inclusion: every output cell equals
the corresponding input cell or 0, and every non-positive (background)
input cell is left unchanged. -/
theorem C10_filter_never_invents :
    ∀ (m : Grid) (k : Kernel) (a e : ℚ) (i j : ℕ),
      ((areaFilter m k a e).val i j = m.val i j ∨ (areaFilter m k a e).val i j = 0)
      ∧ (¬ 0 < m.val i j → (areaFilter m k a e).val i j = m.val i j) :=
  fun m k a e i j => areaFilter_val_cases m k a e i j

/-- C10 witness: on an all-zero grid the filter leaves the (background)
cell at the origin unchanged. -/
theorem C10_filter_never_invents_witness :
    (areaFilter ⟨2, 2, zeroContent⟩ Kernel.queen 1 (81 / 10000)).val 0 0
      = (⟨2, 2, zeroContent⟩ : Grid).val 0 0 :=
  (C10_filter_never_invents ⟨2, 2, zeroContent⟩ Kernel.queen 1 (81 / 10000) 0 0).2
    (lt_irrefl 0)

/-- C8: for a boolean-type policy (resolved mask type `range`, `exclude`
or `include`, not used as weights), every output value of `_apply_mask` is
either 0 or exactly the weight factor. -/
theorem C8_bool_policy_output :
    ∀ (lm : LayerMask) (t : MaskType) (d : Grid) (i j : ℕ),
      lm.asWeights = false → lm.maskType = some t →
      ∃ out, applyMask lm d = .ok out
        ∧ (out.val i j = 0 ∨ out.val i j = lm.weight) := by
  intro lm t d i j hw hmt
  unfold applyMask
  rw [hw]
  simp only [Bool.false_eq_true, if_false]
  rw [hmt]
  cases t with
  | rangeT =>
      refine ⟨_, rfl, ?_⟩
      dsimp only
      unfold rangeMaskVal
      split
      · rw [one_mul]; exact Or.inr rfl
      · rw [zero_mul]; exact Or.inl rfl
  | excludeT =>
      refine ⟨_, rfl, ?_⟩
      dsimp only
      unfold valueMaskVal
      rw [if_neg (by intro h; cases h)]
      split
      · rw [zero_mul]; exact Or.inl rfl
      · rw [one_mul]; exact Or.inr rfl
  | includeT =>
      refine ⟨_, rfl, ?_⟩
      dsimp only
      unfold valueMaskVal
      rw [if_pos rfl]
      split
      · rw [one_mul]; exact Or.inr rfl
      · rw [zero_mul]; exact Or.inl rfl

/-- C8 witness: a concrete `range` policy with weight 1/2 applied to a
concrete grid yields a value in `{0, 1/2}` at the origin. -/
theorem C8_bool_policy_output_witness :
    ∃ out, applyMask ⟨"slope", (none, some 5), none, none, false, 1/2, some .rangeT⟩
        ⟨2, 2, zeroContent⟩ = .ok out
      ∧ (out.val 0 0 = 0
        ∨ out.val 0 0
          = (⟨"slope", (none, some 5), none, none, false, 1/2, some .rangeT⟩
              : LayerMask).weight) :=
  C8_bool_policy_output ⟨"slope", (none, some 5), none, none, false, 1/2, some .rangeT⟩
    .rangeT ⟨2, 2, zeroContent⟩ 0 0 rfl rfl

/-- C9: with `use_as_weights` set, no validation of the range /
include-set / exclude-set fields happens: any combination (even both
include and exclude values) constructs successfully, and `_apply_mask`
ignores the fields entirely, returning the raw values times the weight. -/
theorem C9_weights_skip_validation :
    ∀ (layer : String) (rng : Option ℚ × Option ℚ) (ev iv : Option (List ℚ)) (w : ℚ),
      0 ≤ w → w ≤ 1 →
      mkLayerMask layer rng ev iv true w = .ok ⟨layer, rng, ev, iv, true, w, none⟩
      ∧ ∀ d : Grid, applyMask ⟨layer, rng, ev, iv, true, w, none⟩ d
          = .ok ⟨d.rows, d.cols, fun i j => d.val i j * w⟩ := by
  intro layer rng ev iv w h0 h1
  constructor
  · unfold mkLayerMask
    rw [if_neg (by push_neg; exact ⟨h1, h0⟩)]
    rfl
  · intro d
    rfl

/-- C9 witness: a weights layer carrying a range, an exclude list and an
include list simultaneously constructs without error and applies as raw
values times 1/2. -/
theorem C9_weights_skip_validation_witness :
    mkLayerMask "wind" (some 1, some 2) (some [1]) (some [2]) true (1/2)
      = .ok ⟨"wind", (some 1, some 2), some [1], some [2], true, 1/2, none⟩
    ∧ applyMask ⟨"wind", (some 1, some 2), some [1], some [2], true, 1/2, none⟩
        ⟨2, 2, zeroContent⟩
      = .ok ⟨2, 2, fun i j => (⟨2, 2, zeroContent⟩ : Grid).val i j * (1/2)⟩ :=
  ⟨(C9_weights_skip_validation "wind" (some 1, some 2) (some [1]) (some [2]) (1/2)
      (by norm_num) (by norm_num)).1,
   (C9_weights_skip_validation "wind" (some 1, some 2) (some [1]) (some [2]) (1/2)
      (by norm_num) (by norm_num)).2 ⟨2, 2, zeroContent⟩⟩

/-- C4 counterexample: a non-weights policy with NONE of range / include /
exclude specified does not raise at construction time — `__init__`
succeeds with an unresolved mask type — and the configuration error is
deferred to apply time, where `_apply_mask` raises. -/
theorem C4_none_specified_constructs :
    mkLayerMask "layer" (none, none) none none false 1
      = .ok ⟨"layer", (none, none), none, none, false, 1, none⟩
    ∧ applyMask ⟨"layer", (none, none), none, none, false, 1, none⟩
        ⟨2, 2, zeroContent⟩
      = .error msgInvalidMaskType := by
  constructor
  · unfold mkLayerMask
    rw [if_neg (by norm_num)]
    rfl
  · rfl

/-- C4 (amended): specifying more than one of range / include-set /
exclude-set on a non-weights policy raises at construction time; but
specifying none constructs successfully, and that configuration error only
surfaces when `_apply_mask` is called. -/
theorem C4_validation_split :
    (∀ (layer : String) (rng : Option ℚ × Option ℚ) (ev iv : Option (List ℚ)) (w : ℚ),
      (((rng.1.isSome || rng.2.isSome) && ev.isSome)
        || ((rng.1.isSome || rng.2.isSome) && iv.isSome)
        || (ev.isSome && iv.isSome)) = true →
      ∃ e, mkLayerMask layer rng ev iv false w = .error e)
    ∧ (∀ (layer : String) (w : ℚ), 0 ≤ w → w ≤ 1 →
        mkLayerMask layer (none, none) none none false w
          = .ok ⟨layer, (none, none), none, none, false, w, none⟩
        ∧ ∀ d : Grid, applyMask ⟨layer, (none, none), none, none, false, w, none⟩ d
            = .error msgInvalidMaskType) := by
  constructor
  · intro layer rng ev iv w h2
    unfold mkLayerMask
    by_cases hw : 1 < w ∨ w < 0
    · rw [if_pos hw]
      exact ⟨msgBadWeight, rfl⟩
    · rw [if_neg hw]
      unfold checkMaskType
      rw [if_neg (by simp)]
      refine ⟨msgConflict, ?_⟩
      cases hb1 : (rng.1.isSome || rng.2.isSome)
        <;> cases hb2 : ev.isSome <;> cases hb3 : iv.isSome
        <;> rw [hb1, hb2, hb3] at h2 <;> simp at h2 <;> rfl
  · intro layer w h0 h1
    constructor
    · unfold mkLayerMask
      rw [if_neg (by push_neg; exact ⟨h1, h0⟩)]
      rfl
    · intro d
      rfl

/-- C4 witness: a policy with both a range and an exclude list raises at
construction, and one with nothing specified constructs fine with weight
1/2 and errors only at apply time. -/
theorem C4_validation_split_witness :
    (∃ e, mkLayerMask "excl" (some 0, none) (some [1]) none false 1 = .error e)
    ∧ mkLayerMask "excl" (none, none) none none false (1/2)
        = .ok ⟨"excl", (none, none), none, none, false, 1/2, none⟩
    ∧ applyMask ⟨"excl", (none, none), none, none, false, 1/2, none⟩
        ⟨2, 2, zeroContent⟩ = .error msgInvalidMaskType :=
  ⟨C4_validation_split.1 "excl" (some 0, none) (some [1]) none 1 (by decide),
   (C4_validation_split.2 "excl" (1/2) (by norm_num) (by norm_num)).1,
   (C4_validation_split.2 "excl" (1/2) (by norm_num) (by norm_num)).2 ⟨2, 2, zeroContent⟩⟩

/-- C5: `_generate_mask` is independent of the order of the configured
layers — swapping a pair of layers, and more generally permuting the layer
list, yields an identical result over any window (with or without a
configured minimum area). -/
theorem C5_order_independent :
    ∀ (st : Store) (ma : Option ℚ) (k : Kernel) (w : Win),
      (∀ A B : LayerMask,
        genMask ⟨st, [A, B], ma, k⟩ w = genMask ⟨st, [B, A], ma, k⟩ w)
      ∧ (∀ l l' : List LayerMask, l.Perm l' →
          genMask ⟨st, l, ma, k⟩ w = genMask ⟨st, l', ma, k⟩ w) := by
  intro st ma k w
  have hgen : ∀ l l' : List LayerMask, l.Perm l' →
      genMask ⟨st, l, ma, k⟩ w = genMask ⟨st, l', ma, k⟩ w := by
    intro l l' hp
    unfold genMask
    cases ma with
    | none => exact combineLayers_perm st w hp none
    | some a =>
        dsimp only
        rw [combineLayers_perm st _ hp none]
  exact ⟨fun A B => hgen [A, B] [B, A] (List.Perm.swap B A []), hgen⟩

/-- C7: with no minimum area configured, `_generate_mask` returns exactly
the elementwise product of the layers' policy outputs over the raw values
read for the requested window — no padding, filtering or cropping. -/
theorem C7_no_min_area_product :
    ∀ (st : Store) (k : Kernel) (ls : List LayerMask) (w : Win),
      (∀ lm ∈ ls, validLM lm) → ls ≠ [] →
      genMask ⟨st, ls, none, k⟩ w
        = .ok (some ⟨w.r1 - w.r0, w.c1 - w.c0,
            fun i j => (ls.map (fun lm => layerValAt st w lm i j)).prod⟩) := by
  intro st k ls w hv hne
  have h := combineLayers_valid st w ls hv
  cases ls with
  | nil => exact absurd rfl hne
  | cons lm rest => exact h

/-- A tiny concrete store with two layers, for witnesses. -/
def toyStore : Store := ⟨4, 4, ["a", "b"], fun _ i j => (i + j : ℚ)⟩

/-- A raw-weights policy on layer `"a"`. -/
def lmWa : LayerMask := ⟨"a", (none, none), none, none, true, 1, none⟩

/-- A raw-weights policy on layer `"b"`. -/
def lmWb : LayerMask := ⟨"b", (none, none), none, none, true, 1/2, none⟩

/-- C5 witness: the two orders of the concrete layer pair give the same
mask over a concrete window, with a minimum area configured. -/
theorem C5_order_independent_witness :
    genMask ⟨toyStore, [lmWa, lmWb], some 1, Kernel.queen⟩ ⟨0, 2, 0, 2⟩
      = genMask ⟨toyStore, [lmWb, lmWa], some 1, Kernel.queen⟩ ⟨0, 2, 0, 2⟩ :=
  (C5_order_independent toyStore (some 1) Kernel.queen ⟨0, 2, 0, 2⟩).2
    [lmWa, lmWb] [lmWb, lmWa] (List.Perm.swap lmWb lmWa [])

/-- C7 witness: with no minimum area, the mask over a concrete window for
one concrete weights layer is the layer's output itself. -/
theorem C7_no_min_area_product_witness :
    genMask ⟨toyStore, [lmWa], none, Kernel.queen⟩ ⟨1, 3, 0, 2⟩
      = .ok (some ⟨3 - 1, 2 - 0,
          fun i j => (([lmWa] : List LayerMask).map
            (fun lm => layerValAt toyStore ⟨1, 3, 0, 2⟩ lm i j)).prod⟩) :=
  C7_no_min_area_product toyStore Kernel.queen [lmWa] ⟨1, 3, 0, 2⟩
    (by
      intro lm hlm
      rw [List.mem_singleton] at hlm
      subst hlm
      exact Or.inl rfl)
    (List.cons_ne_nil _ _)

lemma ceil_min_area_001 : (⌈(1/100 : ℚ) / (81/10000)⌉ : ℤ) = 2 := by
  rw [Int.ceil_eq_iff]
  norm_num

lemma ceil_min_area_0005 : (⌈(5/1000 : ℚ) / (81/10000)⌉ : ℤ) = 1 := by
  rw [Int.ceil_eq_iff]
  norm_num

/-- C3 (amended): on in-bounds cells, the area filter zeroes exactly the
foreground cells whose connected region has total area strictly below the
minimum — PROVIDED the mask has at least one non-positive (background)
cell; with an all-positive mask the source's `l[1:]` drops the sole
component's label instead of the absent background label and nothing is
removed.  On the 5×5 single-pixel grid (which has background) the spec's
concrete instances hold: the isolated pixel is removed for
`min_area = 0.01` and kept for `min_area = 0.005`. -/
theorem C3_area_filter_characterization :
    (∀ (m : Grid) (k : Kernel) (a e : ℚ), 0 < e → ∀ i j : ℕ,
        i < m.rows → j < m.cols →
        (areaFilter m k a e).val i j =
          if 0 < m.val i j ∧ ({q | Reaches m k (i, j) q}.ncard : ℚ) * e < a
              ∧ hasBackground m
          then 0 else m.val i j)
    ∧ (areaFilter singlePixelGrid Kernel.queen (1/100) (81/10000)).val 2 2 = 0
    ∧ (areaFilter singlePixelGrid Kernel.queen (5/1000) (81/10000)).val 2 2 = 1 := by
  have hcomp : component singlePixelGrid Kernel.queen (2, 2) = [(2, 2)] := by decide
  refine ⟨areaFilter_val_char, ?_, ?_⟩
  · rw [areaFilter_val_eq, if_pos]
    refine ⟨by decide, by decide, by decide, ?_, by decide⟩
    rw [hcomp, ceil_min_area_001]
    decide
  · rw [areaFilter_val_eq, if_neg]
    · decide
    · rintro ⟨-, -, -, hlt, -⟩
      rw [hcomp, ceil_min_area_0005] at hlt
      exact absurd hlt (by decide)

/-- C3 witness: the characterization instantiated at the 5×5 single-pixel
grid with `min_area = 0.01`. -/
theorem C3_area_filter_characterization_witness :
    (areaFilter singlePixelGrid Kernel.queen (1/100) (81/10000)).val 2 2 =
      if 0 < singlePixelGrid.val 2 2
          ∧ ({q | Reaches singlePixelGrid Kernel.queen (2, 2) q}.ncard : ℚ)
              * (81/10000) < 1/100
          ∧ hasBackground singlePixelGrid
      then 0 else singlePixelGrid.val 2 2 :=
  C3_area_filter_characterization.1 singlePixelGrid Kernel.queen (1/100) (81/10000)
    (by norm_num) 2 2 (by decide) (by decide)

/-- C3 counterexample: on a 1×1 grid whose only cell is foreground, the
single region's area (1 pixel × 0.0081 km²) is strictly below the minimum
area 1 km², yet the filter leaves the cell untouched — `np.unique` sees no
background label 0, so `l[1:]` drops the region's own label.  This refutes
the claim's unconditional "zeroes exactly those regions with
`count * pixel_area < min_area`". -/
theorem C3_all_foreground_counterexample :
    0 < onePixelAllFg.val 0 0
    ∧ ({q | Reaches onePixelAllFg Kernel.queen (0, 0) q}.ncard : ℚ) * (81/10000) < 1
    ∧ (areaFilter onePixelAllFg Kernel.queen 1 (81/10000)).val 0 0 = 1 := by
  refine ⟨by decide, ?_, ?_⟩
  · rw [reach_onePixel, Set.ncard_singleton]
    norm_num
  · rw [areaFilter_val_eq, if_neg]
    · decide
    · rintro ⟨-, -, -, -, hb⟩
      exact absurd hb (by decide)

lemma cropGrid_val (g : Grid) (w : Win) (i j : ℕ) :
    (cropGrid g w).val i j = g.val (w.r0 + i) (w.c0 + j) := rfl

/-- C1 (amended): on a 100×100 domain, requesting rows 10:20 / cols 10:20
with expansion factor 1 yields the padded window rows 0:30 / cols 0:30 and
the recovery sub-slice rows 10:20 / cols 10:20, and for every layer
content whose foreground lies inside the padded window and which leaves at
least one padded-window cell non-positive, cropping the area-filtered
padded window with the recorded sub-slice agrees exactly with filtering
the whole domain and restricting to the requested region.  (For contents
whose foreground crosses the padded boundary, or fills the whole padded
window, the equality can fail — see the counterexample.) -/
theorem C1_window_expansion :
    increaseMaskSlice (100, 100) ⟨10, 20, 10, 20⟩ 1
      = (⟨0, 30, 0, 30⟩, ⟨10, 20, 10, 20⟩)
    ∧ ∀ (v : ℕ → ℕ → ℚ) (k : Kernel) (a : ℚ),
        (∀ x : Cell, fg (⟨100, 100, v⟩ : Grid) x → x.1 < 30 ∧ x.2 < 30) →
        (∃ p ∈ allCells (⟨30, 30, v⟩ : Grid), ¬ 0 < v p.1 p.2) →
        ∀ i j : ℕ, i < 10 → j < 10 →
          (cropGrid (areaFilter (cropGrid ⟨100, 100, v⟩
              (increaseMaskSlice (100, 100) ⟨10, 20, 10, 20⟩ 1).1) k a (81/10000))
            (increaseMaskSlice (100, 100) ⟨10, 20, 10, 20⟩ 1).2).val i j
          = (areaFilter (⟨100, 100, v⟩ : Grid) k a (81/10000)).val (10 + i) (10 + j) := by
  refine ⟨incr_eval_10_20, ?_⟩
  intro v k a hfg hbg i j hi hj
  rw [incr_eval_10_20]
  dsimp only
  rw [cropGrid_zero, cropGrid_val]
  dsimp only
  exact areaFilter_subgrid_eq v 100 100 30 30 (by norm_num) (by norm_num) hfg hbg
    k a (81/10000) (10 + i) (10 + j) (by omega) (by omega)

/-- C1 witness: the pipeline equality instantiated with the all-zero
content at the corner of the requested region. -/
theorem C1_window_expansion_witness :
    (cropGrid (areaFilter (cropGrid ⟨100, 100, zeroContent⟩
        (increaseMaskSlice (100, 100) ⟨10, 20, 10, 20⟩ 1).1) Kernel.queen (81/200)
        (81/10000))
      (increaseMaskSlice (100, 100) ⟨10, 20, 10, 20⟩ 1).2).val 0 0
    = (areaFilter (⟨100, 100, zeroContent⟩ : Grid) Kernel.queen (81/200)
        (81/10000)).val (10 + 0) (10 + 0) :=
  C1_window_expansion.2 zeroContent Kernel.queen (81/200)
    (fun _ hx => absurd hx.2.2 (lt_irrefl 0))
    ⟨(0, 0), by decide, by decide⟩ 0 0 (by norm_num) (by norm_num)

/-- C1 counterexample: for the vertical-strip content running from row 10
to row 99 in column 15, the filtered-then-cropped padded window zeroes the
requested region's cell (5, 5) (the strip counts only 20 pixels inside the
padded window, below the 50-pixel threshold of `min_area = 0.405` km²),
while filtering the whole 100×100 domain keeps it (the strip counts 90
pixels there) — so the claim's "for every possible layer content" fails. -/
theorem C1_boundary_counterexample :
    (cropGrid (areaFilter (cropGrid (vlineGrid 100 100 15 10)
        (increaseMaskSlice (100, 100) ⟨10, 20, 10, 20⟩ 1).1) Kernel.queen (81/200)
        (81/10000))
      (increaseMaskSlice (100, 100) ⟨10, 20, 10, 20⟩ 1).2).val 5 5
    ≠ (areaFilter (vlineGrid 100 100 15 10) Kernel.queen (81/200)
        (81/10000)).val 15 15 := by
  have hL : (areaFilter (vlineGrid 30 30 15 10) Kernel.queen (81/200)
      (81/10000)).val 15 15 = 0 := by
    rw [areaFilter_val_char (vlineGrid 30 30 15 10) Kernel.queen (81/200) (81/10000)
      (by norm_num) 15 15 (by decide) (by decide)]
    rw [if_pos]
    refine ⟨by decide, ?_, by decide⟩
    rw [ncard_vline_reach (by norm_num) (by norm_num) (by norm_num)]
    norm_num
  have hR : (areaFilter (vlineGrid 100 100 15 10) Kernel.queen (81/200)
      (81/10000)).val 15 15 = 1 := by
    rw [areaFilter_val_char (vlineGrid 100 100 15 10) Kernel.queen (81/200) (81/10000)
      (by norm_num) 15 15 (by decide) (by decide)]
    rw [if_neg]
    · decide
    · rintro ⟨-, hlt, -⟩
      rw [ncard_vline_reach (by norm_num) (by norm_num) (by norm_num)] at hlt
      norm_num at hlt
  rw [incr_eval_10_20]
  dsimp only
  rw [cropGrid_zero, cropGrid_val]
  dsimp only
  show (areaFilter (vlineGrid 30 30 15 10) Kernel.queen (81/200)
      (81/10000)).val 15 15 ≠ _
  rw [hL, hR]
  norm_num
